import Mathlib

/-!
Shallow embedding of the plugin event filtering core
(`userspace/libsinsp/plugin_evt_processor.h`): a worker pool evaluating a
compiled filter predicate over a stream of plugin events.

The header in the repository declares the classes, their enumerations and
their field initializers; the method bodies live in a translation unit that
is not part of the excerpt.  Definitions below that embed a method body are
therefore modelled from the specification text (their doc comments say so);
definitions embedding the header itself (the state enumeration, the field
initializers) come straight from the source.
-/

/-- An opaque plugin source descriptor (`ss_plugin_info*` is opaque to this
core; we model a descriptor as a numeric handle). -/
abbrev ss_plugin_info : Type := Nat

/-- Modelled from the spec: an event (`sinsp_evt` plus its backing storage)
is an opaque self-contained record carrying a plugin id and a decodable
payload; we model the payload as a list of numeric fields plus a
decodability flag (spec section 4.1 failure semantics). -/
structure sinsp_evt where
  source : Nat
  decodable : Bool
  fields : List Nat
deriving DecidableEq, Repr, Inhabited

/-- The worker state enumeration, from the header: `WS_READY`, `WS_WORKING`,
`WS_HAS_RESULT`, in that declaration order. -/
inductive pep_flt_worker_state where
  | WS_READY
  | WS_WORKING
  | WS_HAS_RESULT
deriving DecidableEq, Repr, Inhabited

open pep_flt_worker_state

/-- The immediate successor in the worker state cycle
READY -> WORKING -> HAS_RESULT -> READY. -/
def wsNext : pep_flt_worker_state → pep_flt_worker_state
  | WS_READY => WS_WORKING
  | WS_WORKING => WS_HAS_RESULT
  | WS_HAS_RESULT => WS_READY

/-- A filter worker (`sinsp_pep_flt_worker`).  Field initializers are the
header's: `m_die = false`, `m_state = WS_READY`, `m_cnt = 0`, `m_tmp = 0`.
The private event `m_evt` is a plain member, default-constructed and
overwritten in place on each assignment (object-pool discipline).  The
worker's result bit `m_res` models the boolean outcome of
`process_event()`; the shared compiled predicate is held by the processor
and passed to evaluation (spec: reference to the shared compiled predicate,
not owned).  `m_async` is fixed at construction. -/
structure sinsp_pep_flt_worker where
  m_evt : sinsp_evt := default
  m_die : Bool := false
  m_state : pep_flt_worker_state := WS_READY
  m_cnt : Nat := 0
  m_tmp : Nat := 0
  m_async : Bool := true
  m_res : Bool := false
deriving DecidableEq, Repr, Inhabited

/-- Modelled from the spec: evaluation of the compiled predicate on a
worker's private event; a lower-level decoding failure is reported as a
"no match" result rather than propagated (spec sections 4.1 and 7,
EvaluationDecodeFailure). -/
def pepEval (flt : sinsp_evt → Bool) (e : sinsp_evt) : Bool :=
  if e.decodable then flt e else false

/-- Modelled from the spec: `prepare_worker` on the worker side — the
incoming event is copied into the worker's private buffer and the state is
set to WORKING (spec section 4.1, assignment). -/
def prepare_worker_w (e : sinsp_evt) (w : sinsp_pep_flt_worker) :
    sinsp_pep_flt_worker :=
  { w with m_evt := e, m_state := WS_WORKING }

/-- Modelled from the spec: one background evaluation step of
`sinsp_pep_flt_worker::process_event` — a WORKING worker evaluates the
shared predicate on its private event and moves to HAS_RESULT; the match
counter `m_cnt` tracks matches (diagnostics).  On any other state the
worker is left untouched (the background thread only runs while
WORKING). -/
def eval_worker (flt : sinsp_evt → Bool) (w : sinsp_pep_flt_worker) :
    sinsp_pep_flt_worker :=
  if w.m_state = WS_WORKING then
    { w with m_state := WS_HAS_RESULT, m_res := pepEval flt w.m_evt,
             m_cnt := if pepEval flt w.m_evt then w.m_cnt + 1 else w.m_cnt }
  else w

/-- Modelled from the spec: draining a worker that HAS_RESULT resets it to
READY (spec section 4.3, `get_event_from_backlog`). -/
def drain_worker (w : sinsp_pep_flt_worker) : sinsp_pep_flt_worker :=
  { w with m_state := WS_READY }

/-- Index of the first worker in the pool whose state is WS_READY (linear
scan, lowest pool index first — spec section 4.3 step 1). -/
def firstReadyIdx : List sinsp_pep_flt_worker → Option Nat
  | [] => none
  | w :: ws =>
    if w.m_state = WS_READY then some 0
    else (firstReadyIdx ws).map (· + 1)

/-- Index of the first worker in the pool whose state is WS_HAS_RESULT
(the single outstanding worker once it finished — spec section 4.3,
`get_event_from_backlog`). -/
def firstHasResultIdx : List sinsp_pep_flt_worker → Option Nat
  | [] => none
  | w :: ws =>
    if w.m_state = WS_HAS_RESULT then some 0
    else (firstHasResultIdx ws).map (· + 1)

/-- The event processor (`sinsp_plugin_evt_processor`).  Field initializers
from the header: `m_nworkers = 1`, `m_sync_worker = NULL` before
construction completes (here: the constructed sync worker),
`m_inprogress = false`, `m_cur_source_info = NULL`; the containers are
default-constructed empty.  The compiled predicate shared by all workers
is `m_filter` (none before `compile`).  `m_inprogress_infos` maps a plugin
id to its descriptor for events currently in flight. -/
structure sinsp_plugin_evt_processor where
  m_nworkers : Nat := 1
  m_workers : List sinsp_pep_flt_worker := []
  m_sync_worker : sinsp_pep_flt_worker := { m_async := false }
  m_filter : Option (sinsp_evt → Bool) := none
  m_source_info_list : List (Nat × ss_plugin_info) := []
  m_inprogress : Bool := false
  m_inprogress_infos : List (Nat × Option ss_plugin_info) := []
  m_cur_source_info : Option ss_plugin_info := none

/-- The shared predicate actually used by evaluation: the compiled filter
when present; before `compile` no event can match (spec section 7:
filtering must not proceed with a half-built predicate). -/
def theFilter (p : sinsp_plugin_evt_processor) : sinsp_evt → Bool :=
  p.m_filter.getD (fun _ => false)

/-- Modelled from the spec: `get_plugin_source_info(id)` is a pure lookup
into the registry by numeric plugin id, returning a not-found signal for
an unregistered id (spec section 4.2). -/
def get_plugin_source_info (p : sinsp_plugin_evt_processor) (id : Nat) :
    Option ss_plugin_info :=
  (p.m_source_info_list.find? (fun kv => kv.1 = id)).map (·.2)

/-- Modelled from the spec: `is_worker_available()` gates dispatch — a new
event may be dispatched asynchronously only when no event is in flight and
some async worker is READY (spec section 4.3 steps 1 and 2). -/
def is_worker_available (p : sinsp_plugin_evt_processor) : Bool :=
  !p.m_inprogress && (firstReadyIdx p.m_workers).isSome

/-- Removes the entry for key `id` from the in-progress sources map. -/
def eraseSource (infos : List (Nat × Option ss_plugin_info)) (id : Nat) :
    List (Nat × Option ss_plugin_info) :=
  infos.filter (fun kv => kv.1 ≠ id)

/-- Modelled from the spec: the synchronous fallback — evaluate inline on
the single synchronous worker (the caller's thread blocks until the result
is known); the sync worker passes through the full
READY -> WORKING -> HAS_RESULT -> READY cycle within the call and the
result (the event on match, null on non-match) is returned immediately
(spec sections 4.1 and 4.3). -/
def syncProcess (flt : sinsp_evt → Bool) (e : sinsp_evt)
    (w : sinsp_pep_flt_worker) : sinsp_pep_flt_worker × Option sinsp_evt :=
  let w1 := prepare_worker_w e w
  let w2 := eval_worker flt w1
  let w3 := drain_worker w2
  (w3, if w2.m_res then some e else none)

/-- Modelled from the spec: `process_event(evt)`, the core dispatch step
(spec section 4.3).  When dispatch is possible (no event in flight and a
READY async worker exists), the lowest-index READY worker is assigned via
`prepare_worker`, the event's plugin id is recorded in the in-progress
sources map, the current source descriptor is updated, the in-progress
flag is set and null is returned.  Otherwise the event is evaluated inline
on the synchronous worker and the result returned immediately; no second
dispatch ever occurs while one is outstanding. -/
def process_event (p : sinsp_plugin_evt_processor) (e : sinsp_evt) :
    sinsp_plugin_evt_processor × Option sinsp_evt :=
  if p.m_inprogress then
    ({ p with
        m_sync_worker := (syncProcess (theFilter p) e p.m_sync_worker).1,
        m_cur_source_info := get_plugin_source_info p e.source },
      (syncProcess (theFilter p) e p.m_sync_worker).2)
  else
    match firstReadyIdx p.m_workers with
    | some i =>
      ({ p with
          m_workers := p.m_workers.modify (prepare_worker_w e) i,
          m_inprogress := true,
          m_inprogress_infos :=
            (e.source, get_plugin_source_info p e.source) ::
              p.m_inprogress_infos,
          m_cur_source_info := get_plugin_source_info p e.source }, none)
    | none =>
      ({ p with
          m_sync_worker := (syncProcess (theFilter p) e p.m_sync_worker).1,
          m_cur_source_info := get_plugin_source_info p e.source },
        (syncProcess (theFilter p) e p.m_sync_worker).2)

/-- Modelled from the spec: the background threads of the async workers
completing their evaluation — every WORKING worker evaluates the shared
predicate and parks in HAS_RESULT (spec section 5 scheduling model).  This
is the explicit step between dispatch and drain in the sequential
embedding. -/
def stepWorkers (p : sinsp_plugin_evt_processor) :
    sinsp_plugin_evt_processor :=
  { p with m_workers := p.m_workers.map (eval_worker (theFilter p)) }

/-- Modelled from the spec: `get_event_from_backlog()` — drains the single
outstanding worker once it reaches HAS_RESULT: returns the worker's event
on match, null on non-match, resets the worker to READY, clears the
in-progress flag and removes the corresponding in-progress sources entry.
Returns null without blocking when no worker has finished (polling
contract, spec section 4.3). -/
def get_event_from_backlog (p : sinsp_plugin_evt_processor) :
    sinsp_plugin_evt_processor × Option sinsp_evt :=
  match firstHasResultIdx p.m_workers with
  | none => (p, none)
  | some i =>
    ({ p with
        m_workers := p.m_workers.modify drain_worker i,
        m_inprogress := false,
        m_inprogress_infos :=
          eraseSource p.m_inprogress_infos
            (p.m_workers.getD i default).m_evt.source },
      if (p.m_workers.getD i default).m_res then
        some (p.m_workers.getD i default).m_evt
      else none)

/-- A worker as constructed (header field initializers: `m_die = false`,
`m_state = WS_READY`, counters zero); `async` is the construction flag. -/
def init_worker (async : Bool) : sinsp_pep_flt_worker :=
  { m_async := async }

/-- Modelled from the spec: the processor constructor — a pool of `n` async
workers plus one dedicated synchronous worker; the plugin source registry
is populated once at setup time, before any filtering begins (spec
sections 3 and 4.2).  All remaining fields take the header's
initializers. -/
def mk_processor (n : Nat) (registry : List (Nat × ss_plugin_info)) :
    sinsp_plugin_evt_processor :=
  { m_nworkers := n,
    m_workers := List.replicate n (init_worker true),
    m_sync_worker := init_worker false,
    m_source_info_list := registry }

/-- A token of the modelled filter-expression language. -/
inductive flt_tok where
  | field (n : Nat)
  | cmp_eq
  | num (n : Nat)
deriving DecidableEq, Repr

/-- Modelled from the spec: well-formedness of a filter expression — the
modelled grammar is a single comparison "field == value" (spec section 8,
concrete scenario: expression equivalent to "field == 5"). -/
def wellFormedExpr : List flt_tok → Bool
  | [flt_tok.field _, flt_tok.cmp_eq, flt_tok.num _] => true
  | _ => false

/-- The error reported on a malformed filter expression. -/
inductive CompileError where
  | malformed
deriving DecidableEq, Repr

/-- Modelled from the spec: the filter-compiler collaborator —
`compile(expression_string) -> predicate` over an event, failing with a
descriptive compile error on malformed syntax (spec section 6). -/
def compileExpr : List flt_tok → Except CompileError (sinsp_evt → Bool)
  | [flt_tok.field f, flt_tok.cmp_eq, flt_tok.num n] =>
    Except.ok (fun e => e.fields.getD f 0 == n)
  | _ => Except.error CompileError.malformed

/-- Modelled from the spec: `compile(filter)` builds the shared compiled
predicate once; on a malformed expression the CompileError is propagated
to the caller and the processor is left without a half-built predicate
(spec sections 4.3 and 7). -/
def compile (p : sinsp_plugin_evt_processor) (toks : List flt_tok) :
    sinsp_plugin_evt_processor × Option CompileError :=
  match compileExpr toks with
  | Except.ok f => ({ p with m_filter := some f }, none)
  | Except.error err => (p, some err)

/-- The observable phases of a worker's background thread of control:
parked awaiting a wake-up, evaluating, or exited. -/
inductive pep_thread_state where
  | parked
  | evaluating
  | exited
deriving DecidableEq, Repr

/-- Modelled from the spec: the background thread of control of an async
worker (`m_th`) together with the worker's `m_die` flag, which is checked
cooperatively (spec section 5). -/
structure pep_worker_thread where
  st : pep_thread_state := pep_thread_state.parked
  die : Bool := false
deriving DecidableEq, Repr

/-- Modelled from the spec: waking the parked background thread — with the
die flag set the thread exits its loop instead of entering evaluation;
otherwise it starts evaluating (spec sections 4.1 and 5). -/
def wake_thread (t : pep_worker_thread) : pep_worker_thread :=
  if t.die then { t with st := pep_thread_state.exited }
  else { t with st := pep_thread_state.evaluating }

/-- Modelled from the spec: one round of the background loop — an
evaluating thread finishes its evaluation and parks again awaiting the
next assignment or a termination request; a parked thread with the die
flag set exits when it re-checks the flag (spec sections 4.1 and 5). -/
def thread_round (t : pep_worker_thread) : pep_worker_thread :=
  match t.st with
  | pep_thread_state.evaluating => { t with st := pep_thread_state.parked }
  | pep_thread_state.parked =>
    if t.die then { t with st := pep_thread_state.exited } else t
  | pep_thread_state.exited => t

/-- Modelled from the spec: the worker destructor
(`~sinsp_pep_flt_worker`) — set the die flag, let a running evaluation
finish and park, wake the parked thread so it observes the flag and
exits, then join.  The boolean records that the join completed — that the
thread had fully exited — before the destructor releases the worker's
memory, the shared predicate or the registry (join-before-destroy,
spec sections 4.1 and 5). -/
def destroy_worker (t : pep_worker_thread) : pep_worker_thread × Bool :=
  let t1 := { t with die := true }
  let t2 := thread_round t1
  let t3 := wake_thread t2
  let t4 := thread_round t3
  (t4, t4.st == pep_thread_state.exited)

/-- One submission round of the driver: submit through `process_event`;
when the event was dispatched asynchronously (the in-progress flag is
set), let the background thread run and drain the result from the backlog
before the next submission. -/
def runOne (p : sinsp_plugin_evt_processor) (e : sinsp_evt) :
    sinsp_plugin_evt_processor × Option sinsp_evt :=
  if (process_event p e).1.m_inprogress then
    get_event_from_backlog (stepWorkers (process_event p e).1)
  else process_event p e

/-- The driver for a finite sequence of events: each submission is drained
before the next one; the non-null results are collected in order. -/
def runSeq (p : sinsp_plugin_evt_processor) :
    List sinsp_evt → sinsp_plugin_evt_processor × List sinsp_evt
  | [] => (p, [])
  | e :: es =>
    ((runSeq (runOne p e).1 es).1,
      (runOne p e).2.toList ++ (runSeq (runOne p e).1 es).2)

/-- A quiescent processor: every pool worker and the sync worker READY and
no event in flight — the state between completed submission rounds. -/
def Quiescent (p : sinsp_plugin_evt_processor) : Bool :=
  p.m_workers.all (fun w => w.m_state == WS_READY) &&
  p.m_sync_worker.m_state == WS_READY &&
  !p.m_inprogress

/-- A concrete compiled-predicate fixture, the predicate of the expression
"field 0 == 5" (spec section 8 concrete scenario). -/
def fltFix : sinsp_evt → Bool := fun e => e.fields.getD 0 0 == 5

/-- A concrete event fixture that matches `fltFix`. -/
def evtFixA : sinsp_evt := { source := 7, decodable := true, fields := [5] }

/-- A concrete event fixture that does not match `fltFix`. -/
def evtFixB : sinsp_evt := { source := 7, decodable := true, fields := [3] }

/-- A concrete undecodable event fixture. -/
def evtFixBad : sinsp_evt := { source := 9, decodable := false, fields := [5] }

/-- A concrete processor fixture: one async worker, one registered plugin
source, predicate `fltFix` compiled. -/
def procFix : sinsp_plugin_evt_processor :=
  { mk_processor 1 [(7, 42)] with m_filter := some fltFix }

/-- A concrete submission sequence fixture (match, no match, match). -/
def evtsFix : List sinsp_evt := [evtFixA, evtFixB, evtFixA]

theorem quiescent_iff (p : sinsp_plugin_evt_processor) :
    Quiescent p = true ↔
      (∀ w ∈ p.m_workers, w.m_state = WS_READY) ∧
      p.m_sync_worker.m_state = WS_READY ∧ p.m_inprogress = false := by
  simp [Quiescent, List.all_eq_true, and_assoc]

theorem eval_worker_of_not_working (flt : sinsp_evt → Bool)
    (w : sinsp_pep_flt_worker) (h : w.m_state ≠ WS_WORKING) :
    eval_worker flt w = w := by
  simp [eval_worker, h]

theorem eval_worker_of_working (flt : sinsp_evt → Bool)
    (w : sinsp_pep_flt_worker) (h : w.m_state = WS_WORKING) :
    eval_worker flt w =
      { w with m_state := WS_HAS_RESULT, m_res := pepEval flt w.m_evt,
               m_cnt := if pepEval flt w.m_evt then w.m_cnt + 1
                        else w.m_cnt } := by
  simp [eval_worker, h]

theorem map_eval_of_ready (flt : sinsp_evt → Bool) :
    ∀ ws : List sinsp_pep_flt_worker,
      (∀ w ∈ ws, w.m_state = WS_READY) → ws.map (eval_worker flt) = ws
  | [], _ => rfl
  | w :: ws, h => by
    have hw := h w (by simp)
    rw [List.map_cons,
      eval_worker_of_not_working _ _ (by rw [hw]; intro hc; cases hc),
      map_eval_of_ready flt ws (fun w' hw' => h w' (by simp [hw']))]

theorem syncProcess_spec (flt : sinsp_evt → Bool) (e : sinsp_evt)
    (w : sinsp_pep_flt_worker) :
    syncProcess flt e w =
      ({ w with m_evt := e, m_state := WS_READY, m_res := pepEval flt e,
                m_cnt := if pepEval flt e then w.m_cnt + 1 else w.m_cnt },
        if pepEval flt e then some e else none) := by
  simp [syncProcess, prepare_worker_w, eval_worker, drain_worker]

theorem firstReadyIdx_spec :
    ∀ (ws : List sinsp_pep_flt_worker) (i : Nat),
      firstReadyIdx ws = some i →
      i < ws.length ∧
      (∀ w, ws[i]? = some w → w.m_state = WS_READY) ∧
      (∀ k w, k < i → ws[k]? = some w → w.m_state ≠ WS_READY)
  | [], i, h => by simp [firstReadyIdx] at h
  | w :: ws, i, h => by
    by_cases hw : w.m_state = WS_READY
    · simp only [firstReadyIdx, if_pos hw] at h
      cases h
      exact ⟨Nat.succ_pos _,
        fun w' hw' => by simp at hw'; rw [← hw']; exact hw,
        fun k w' hk => absurd hk (Nat.not_lt_zero _)⟩
    · simp only [firstReadyIdx, if_neg hw] at h
      cases hfr : firstReadyIdx ws with
      | none => rw [hfr] at h; simp at h
      | some j =>
        rw [hfr] at h; simp at h
        obtain ⟨hlen, hri, hmin⟩ := firstReadyIdx_spec ws j hfr
        subst h
        refine ⟨Nat.succ_lt_succ hlen, ?_, ?_⟩
        · intro w' hw'
          rw [List.getElem?_cons_succ] at hw'
          exact hri w' hw'
        · intro k w' hk hkw
          cases k with
          | zero => simp at hkw; rw [← hkw]; exact hw
          | succ k' =>
            rw [List.getElem?_cons_succ] at hkw
            exact hmin k' w' (Nat.lt_of_succ_lt_succ hk) hkw

theorem firstHasResultIdx_spec :
    ∀ (ws : List sinsp_pep_flt_worker) (i : Nat),
      firstHasResultIdx ws = some i →
      i < ws.length ∧
      (∀ w, ws[i]? = some w → w.m_state = WS_HAS_RESULT) ∧
      (∀ k w, k < i → ws[k]? = some w → w.m_state ≠ WS_HAS_RESULT)
  | [], i, h => by simp [firstHasResultIdx] at h
  | w :: ws, i, h => by
    by_cases hw : w.m_state = WS_HAS_RESULT
    · simp only [firstHasResultIdx, if_pos hw] at h
      cases h
      exact ⟨Nat.succ_pos _,
        fun w' hw' => by simp at hw'; rw [← hw']; exact hw,
        fun k w' hk => absurd hk (Nat.not_lt_zero _)⟩
    · simp only [firstHasResultIdx, if_neg hw] at h
      cases hfr : firstHasResultIdx ws with
      | none => rw [hfr] at h; simp at h
      | some j =>
        rw [hfr] at h; simp at h
        obtain ⟨hlen, hri, hmin⟩ := firstHasResultIdx_spec ws j hfr
        subst h
        refine ⟨Nat.succ_lt_succ hlen, ?_, ?_⟩
        · intro w' hw'
          rw [List.getElem?_cons_succ] at hw'
          exact hri w' hw'
        · intro k w' hk hkw
          cases k with
          | zero => simp at hkw; rw [← hkw]; exact hw
          | succ k' =>
            rw [List.getElem?_cons_succ] at hkw
            exact hmin k' w' (Nat.lt_of_succ_lt_succ hk) hkw

theorem runOne_quiescent (p : sinsp_plugin_evt_processor) (e : sinsp_evt)
    (hq : Quiescent p = true) :
    (runOne p e).2 = (if pepEval (theFilter p) e then some e else none) ∧
    Quiescent (runOne p e).1 = true ∧
    (runOne p e).1.m_filter = p.m_filter := by
  obtain ⟨hw, hs, hip⟩ := (quiescent_iff p).1 hq
  cases hws : p.m_workers with
  | nil =>
    simp [runOne, process_event, hip, hws, firstReadyIdx, syncProcess_spec,
      Quiescent, stepWorkers, get_event_from_backlog, hs]
  | cons w ws =>
    have hw0 : w.m_state = WS_READY := hw w (by rw [hws]; simp)
    have hwall : ∀ w' ∈ ws, w'.m_state = WS_READY :=
      fun w' h' => hw w' (by rw [hws]; simp [h'])
    have hwws : ∀ flt : sinsp_evt → Bool, ws.map (eval_worker flt) = ws :=
      fun flt => map_eval_of_ready flt ws hwall
    have hall : ws.all (fun w' => w'.m_state == WS_READY) = true := by
      rw [List.all_eq_true]
      intro w' h'
      simp [hwall w' h']
    simp [runOne, process_event, hip, hws, firstReadyIdx, hw0, stepWorkers,
      theFilter, eval_worker, prepare_worker_w, hwws, get_event_from_backlog,
      firstHasResultIdx, drain_worker, Quiescent, hall, hwall, hs]

theorem theFilter_eq_of_filter_eq (p q : sinsp_plugin_evt_processor)
    (h : p.m_filter = q.m_filter) : theFilter p = theFilter q := by
  rw [theFilter, theFilter, h]

theorem runSeq_quiescent (es : List sinsp_evt) :
    ∀ p : sinsp_plugin_evt_processor, Quiescent p = true →
      (runSeq p es).2 = es.filter (fun e => pepEval (theFilter p) e) ∧
      Quiescent (runSeq p es).1 = true ∧
      (runSeq p es).1.m_filter = p.m_filter := by
  induction es with
  | nil => intro p hq; exact ⟨rfl, hq, rfl⟩
  | cons e es ih =>
    intro p hq
    obtain ⟨hr, hq', hf'⟩ := runOne_quiescent p e hq
    obtain ⟨ih1, ih2, ih3⟩ := ih (runOne p e).1 hq'
    have hfe : theFilter (runOne p e).1 = theFilter p :=
      theFilter_eq_of_filter_eq _ _ hf'
    refine ⟨?_, ih2, ih3.trans hf'⟩
    show (runOne p e).2.toList ++ (runSeq (runOne p e).1 es).2 = _
    rw [ih1, hfe, hr, List.filter_cons]
    cases hpe : pepEval (theFilter p) e <;> simp

theorem getD_modify_ne {α : Type} [Inhabited α] (f : α → α) (l : List α)
    {i j : Nat} (h : j ≠ i) :
    (l.modify f j).getD i default = l.getD i default := by
  rw [List.getD_eq_getElem?_getD, List.getD_eq_getElem?_getD,
    List.getElem?_modify]
  cases l[i]? with
  | none => rfl
  | some a => simp [h]

theorem getD_modify_self {α : Type} [Inhabited α] (f : α → α) (l : List α)
    {j : Nat} (h : j < l.length) :
    (l.modify f j).getD j default = f (l.getD j default) := by
  rw [List.getD_eq_getElem?_getD, List.getD_eq_getElem?_getD,
    List.getElem?_modify, List.getElem?_eq_getElem h]
  simp

theorem getD_eq_of_getElem? {α : Type} [Inhabited α] (l : List α) {i : Nat}
    {a : α} (h : l[i]? = some a) : l.getD i default = a := by
  rw [List.getD_eq_getElem?_getD, h]
  rfl

theorem getElem?_getD_self (ws : List sinsp_pep_flt_worker) {i : Nat}
    (h : i < ws.length) : ws[i]? = some (ws.getD i default) := by
  rw [List.getD_eq_getElem?_getD, List.getElem?_eq_getElem h]
  rfl

theorem firstHasResultIdx_none_of_all :
    ∀ ws : List sinsp_pep_flt_worker,
      (∀ w ∈ ws, w.m_state ≠ WS_HAS_RESULT) → firstHasResultIdx ws = none
  | [], _ => rfl
  | w :: ws, h => by
    rw [firstHasResultIdx, if_neg (h w (by simp)),
      firstHasResultIdx_none_of_all ws (fun w' h' => h w' (by simp [h']))]
    rfl

theorem compileExpr_isOk_eq_wf (toks : List flt_tok) :
    (compileExpr toks).isOk = wellFormedExpr toks := by
  match toks with
  | [] => rfl
  | [t1] => cases t1 <;> rfl
  | [t1, t2] => cases t1 <;> cases t2 <;> rfl
  | [t1, t2, t3] => cases t1 <;> cases t2 <;> cases t3 <;> rfl
  | t1 :: t2 :: t3 :: t4 :: rest =>
    cases t1 <;> cases t2 <;> cases t3 <;> cases t4 <;> rfl

theorem compileExpr_eq_error (toks : List flt_tok)
    (h : wellFormedExpr toks = false) :
    compileExpr toks = Except.error CompileError.malformed := by
  cases hc : compileExpr toks with
  | ok f =>
    have hok := compileExpr_isOk_eq_wf toks
    rw [hc, h] at hok
    exact Bool.noConfusion hok
  | error err => cases err; rfl

theorem compileExpr_ok_of_wf (toks : List flt_tok)
    (h : wellFormedExpr toks = true) :
    ∃ f, compileExpr toks = Except.ok f := by
  cases hc : compileExpr toks with
  | ok f => exact ⟨f, rfl⟩
  | error err =>
    have hok := compileExpr_isOk_eq_wf toks
    rw [hc, h] at hok
    exact Bool.noConfusion hok

theorem assoc_find_some :
    ∀ (l : List (Nat × ss_plugin_info)) (id : Nat) (d : ss_plugin_info),
      (l.map Prod.fst).Nodup → (id, d) ∈ l →
      (l.find? (fun kv => kv.1 = id)).map (·.2) = some d
  | [], _, _, _, hmem => absurd hmem (List.not_mem_nil _)
  | (k, v) :: tl, id, d, hnd, hmem => by
    rw [List.map_cons, List.nodup_cons] at hnd
    rcases List.mem_cons.1 hmem with heq | htl
    · cases heq
      rw [List.find?_cons_of_pos _ (by simp)]
      rfl
    · by_cases hk : k = id
      · subst hk
        exact absurd (List.mem_map.2 ⟨(k, d), htl, rfl⟩) hnd.1
      · rw [List.find?_cons_of_neg _ (by simp [hk])]
        exact assoc_find_some tl id d hnd.2 htl

theorem assoc_find_none (l : List (Nat × ss_plugin_info)) (id : Nat)
    (h : ∀ d : ss_plugin_info, (id, d) ∉ l) :
    l.find? (fun kv => kv.1 = id) = none := by
  rw [List.find?_eq_none]
  intro kv hkv
  simp only [decide_eq_true_eq]
  intro hke
  exact h kv.2 (by rw [← hke]; exact hkv)

/-- C1: for every finite sequence of events submitted through
`process_event`, with each asynchronous dispatch drained via
`get_event_from_backlog` before the next submission (`runSeq`), the
sequence of non-null results emitted is exactly the subsequence of
submitted events for which the compiled predicate is true, in original
submission order; in particular (singleton sequence) a round returns the
event iff the predicate holds for it, else null. -/
theorem C1_pipeline_emits_filtered_subsequence
    (es : List sinsp_evt) (p : sinsp_plugin_evt_processor)
    (flt : sinsp_evt → Bool) (hq : Quiescent p = true)
    (hf : p.m_filter = some flt) (hd : ∀ e ∈ es, e.decodable = true) :
    (runSeq p es).2 = es.filter flt := by
  have hth : theFilter p = flt := by rw [theFilter, hf]; rfl
  obtain ⟨h1, _, _⟩ := runSeq_quiescent es p hq
  rw [h1, hth]
  exact List.filter_congr (fun e he => by simp [pepEval, hd e he])

/-- Witness for C1 at a concrete processor, predicate and event sequence. -/
theorem C1_pipeline_emits_filtered_subsequence_witness :
    Quiescent procFix = true ∧ procFix.m_filter = some fltFix ∧
    (∀ e ∈ evtsFix, e.decodable = true) ∧
    (runSeq procFix evtsFix).2 = evtsFix.filter fltFix :=
  ⟨by decide, rfl, by decide,
    C1_pipeline_emits_filtered_subsequence evtsFix procFix fltFix
      (by decide) rfl (by decide)⟩

/-- C3: whenever the in-progress flag is set (a dispatched event not yet
drained), `process_event` never dispatches a second event to an async
worker: the pool is untouched, the in-progress bookkeeping is unchanged,
and the call instead evaluates the event inline on the synchronous
fallback and returns that result — so a "dispatched" (null-after-
assignment) outcome never occurs while another event is in flight. -/
theorem C3_single_event_in_flight
    (p : sinsp_plugin_evt_processor) (e : sinsp_evt)
    (flt : sinsp_evt → Bool) (hip : p.m_inprogress = true)
    (hf : p.m_filter = some flt) :
    (process_event p e).1.m_workers = p.m_workers ∧
    (process_event p e).1.m_inprogress = true ∧
    (process_event p e).1.m_inprogress_infos = p.m_inprogress_infos ∧
    (process_event p e).2 = (if pepEval flt e then some e else none) := by
  have hth : theFilter p = flt := by rw [theFilter, hf]; rfl
  simp [process_event, hip, syncProcess_spec, hth]

/-- Witness for C3 at a concrete in-flight processor state. -/
theorem C3_single_event_in_flight_witness :
    ({ procFix with m_inprogress := true } :
        sinsp_plugin_evt_processor).m_inprogress = true ∧
    ({ procFix with m_inprogress := true } :
        sinsp_plugin_evt_processor).m_filter = some fltFix ∧
    (process_event { procFix with m_inprogress := true } evtFixA).1.m_workers =
      ({ procFix with m_inprogress := true } :
        sinsp_plugin_evt_processor).m_workers ∧
    (process_event { procFix with m_inprogress := true } evtFixA).2 =
      (if pepEval fltFix evtFixA then some evtFixA else none) :=
  ⟨rfl, rfl,
    (C3_single_event_in_flight { procFix with m_inprogress := true }
      evtFixA fltFix rfl rfl).1,
    (C3_single_event_in_flight { procFix with m_inprogress := true }
      evtFixA fltFix rfl rfl).2.2.2⟩

/-- C6: `compile` reports a CompileError for every malformed filter
expression and builds the shared predicate for every well-formed one;
after a failed compile the processor is unchanged — in particular it holds
no half-built predicate — and before a successful compile has installed a
predicate no `process_event` round ever emits an event. -/
theorem C6_compile_contract :
    (∀ toks : List flt_tok, (compileExpr toks).isOk = wellFormedExpr toks) ∧
    (∀ (p : sinsp_plugin_evt_processor) (toks : List flt_tok),
      wellFormedExpr toks = false →
      compile p toks = (p, some CompileError.malformed)) ∧
    (∀ (p : sinsp_plugin_evt_processor) (toks : List flt_tok),
      wellFormedExpr toks = true →
      ∃ f, compile p toks = ({ p with m_filter := some f }, none)) ∧
    (∀ (p : sinsp_plugin_evt_processor) (e : sinsp_evt),
      Quiescent p = true → p.m_filter = none → (runOne p e).2 = none) := by
  refine ⟨compileExpr_isOk_eq_wf, ?_, ?_, ?_⟩
  · intro p toks h
    rw [compile, compileExpr_eq_error toks h]
  · intro p toks h
    obtain ⟨f, hf⟩ := compileExpr_ok_of_wf toks h
    exact ⟨f, by rw [compile, hf]⟩
  · intro p e hq hf
    obtain ⟨h1, _, _⟩ := runOne_quiescent p e hq
    rw [h1, theFilter, hf]
    simp [pepEval]

/-- Witness for C6 at a concrete malformed and a concrete well-formed
expression. -/
theorem C6_compile_contract_witness :
    wellFormedExpr [flt_tok.cmp_eq] = false ∧
    compile procFix [flt_tok.cmp_eq] =
      (procFix, some CompileError.malformed) ∧
    wellFormedExpr [flt_tok.field 0, flt_tok.cmp_eq, flt_tok.num 5] = true ∧
    (∃ f, compile procFix [flt_tok.field 0, flt_tok.cmp_eq, flt_tok.num 5] =
      ({ procFix with m_filter := some f }, none)) :=
  ⟨by decide,
    C6_compile_contract.2.1 procFix [flt_tok.cmp_eq] (by decide),
    by decide,
    C6_compile_contract.2.2.1 procFix
      [flt_tok.field 0, flt_tok.cmp_eq, flt_tok.num 5] (by decide)⟩

/-- C7: worker evaluation is a total operation whose only outcomes are
match and non-match: a WORKING worker always reaches HAS_RESULT with the
boolean evaluation of the predicate on its private event, and an event
whose decoding fails evaluates to "no match" instead of propagating any
error. -/
theorem C7_decode_failure_is_nonmatch
    (flt : sinsp_evt → Bool) (w : sinsp_pep_flt_worker) (e : sinsp_evt) :
    (w.m_state = WS_WORKING →
      (eval_worker flt w).m_state = WS_HAS_RESULT ∧
      (eval_worker flt w).m_res = pepEval flt w.m_evt) ∧
    (e.decodable = false → pepEval flt e = false) ∧
    (e.decodable = true → pepEval flt e = flt e) := by
  refine ⟨fun h => ?_, fun h => ?_, fun h => ?_⟩
  · rw [eval_worker_of_working flt w h]
    exact ⟨rfl, rfl⟩
  · rw [pepEval, h]
    rfl
  · rw [pepEval, h]
    rfl

/-- Witness for C7 on a concrete working worker and a concrete
undecodable event. -/
theorem C7_decode_failure_is_nonmatch_witness :
    (prepare_worker_w evtFixBad (init_worker true)).m_state = WS_WORKING ∧
    evtFixBad.decodable = false ∧
    (eval_worker fltFix
        (prepare_worker_w evtFixBad (init_worker true))).m_state =
      WS_HAS_RESULT ∧
    pepEval fltFix evtFixBad = false :=
  ⟨rfl, rfl,
    ((C7_decode_failure_is_nonmatch fltFix
        (prepare_worker_w evtFixBad (init_worker true)) evtFixBad).1
      rfl).1,
    (C7_decode_failure_is_nonmatch fltFix
        (prepare_worker_w evtFixBad (init_worker true)) evtFixBad).2.1 rfl⟩

/-- C9: destroying a worker never deadlocks and frees memory only after
its background thread has fully exited: the destructor protocol — set the
die flag, let any running evaluation park, wake the parked thread, join —
always drives the thread to the exited state, and the join-completed flag
(memory released only afterwards) is always true. -/
theorem C9_join_before_destroy (t : pep_worker_thread) :
    (destroy_worker t).1.st = pep_thread_state.exited ∧
    (destroy_worker t).2 = true := by
  cases ht : t.st <;>
    simp [destroy_worker, thread_round, wake_thread, ht]

/-- C10: immediately after construction no event is in flight: every
worker (async and sync) starts READY with the die flag false, the
in-progress flag is false, the in-progress sources map is empty, the
current source descriptor is null, and the first `process_event` finds the
dispatch path available. -/
theorem C10_initial_state (n : Nat) (reg : List (Nat × ss_plugin_info))
    (hn : 0 < n) :
    (∀ w ∈ (mk_processor n reg).m_workers,
      w.m_state = WS_READY ∧ w.m_die = false) ∧
    (mk_processor n reg).m_sync_worker.m_state = WS_READY ∧
    (mk_processor n reg).m_sync_worker.m_die = false ∧
    (mk_processor n reg).m_inprogress = false ∧
    (mk_processor n reg).m_inprogress_infos = [] ∧
    (mk_processor n reg).m_cur_source_info = none ∧
    (mk_processor n reg).m_filter = none ∧
    is_worker_available (mk_processor n reg) = true := by
  refine ⟨?_, rfl, rfl, rfl, rfl, rfl, rfl, ?_⟩
  · intro w hw
    have : w = init_worker true :=
      (List.eq_of_mem_replicate (by simpa [mk_processor] using hw))
    rw [this]
    exact ⟨rfl, rfl⟩
  · cases n with
    | zero => exact absurd hn (by simp)
    | succ m =>
      rw [is_worker_available]
      simp [mk_processor, List.replicate_succ, firstReadyIdx, init_worker]

/-- Witness for C10 at a concrete pool size and registry. -/
theorem C10_initial_state_witness :
    0 < 1 ∧
    (mk_processor 1 [(7, 42)]).m_inprogress = false ∧
    is_worker_available (mk_processor 1 [(7, 42)]) = true :=
  ⟨by decide, (C10_initial_state 1 [(7, 42)] (by decide)).2.2.2.1,
    (C10_initial_state 1 [(7, 42)] (by decide)).2.2.2.2.2.2.2⟩

/-- C2: every reachable transition moves a worker's state to its immediate
successor in the cycle READY -> WORKING -> HAS_RESULT -> READY and never
skips a state: assignment fires only on READY workers and yields WORKING,
background evaluation fires only on WORKING workers and yields HAS_RESULT,
draining fires only on HAS_RESULT workers and yields READY; the inline
synchronous cycle passes through each state in order, and each processor
operation changes each pool worker either not at all or by exactly one
step of the cycle from the matching predecessor state. -/
theorem C2_state_cycle_never_skips :
    (wsNext WS_READY = WS_WORKING ∧ wsNext WS_WORKING = WS_HAS_RESULT ∧
      wsNext WS_HAS_RESULT = WS_READY) ∧
    (∀ (e : sinsp_evt) (w : sinsp_pep_flt_worker), w.m_state = WS_READY →
      (prepare_worker_w e w).m_state = wsNext w.m_state) ∧
    (∀ (flt : sinsp_evt → Bool) (w : sinsp_pep_flt_worker),
      w.m_state = WS_WORKING →
      (eval_worker flt w).m_state = wsNext w.m_state) ∧
    (∀ (flt : sinsp_evt → Bool) (w : sinsp_pep_flt_worker),
      w.m_state ≠ WS_WORKING → eval_worker flt w = w) ∧
    (∀ w : sinsp_pep_flt_worker, w.m_state = WS_HAS_RESULT →
      (drain_worker w).m_state = wsNext w.m_state) ∧
    (∀ (flt : sinsp_evt → Bool) (e : sinsp_evt) (w : sinsp_pep_flt_worker),
      w.m_state = WS_READY →
      (prepare_worker_w e w).m_state = wsNext w.m_state ∧
      (eval_worker flt (prepare_worker_w e w)).m_state =
        wsNext (prepare_worker_w e w).m_state ∧
      (drain_worker (eval_worker flt (prepare_worker_w e w))).m_state =
        wsNext (eval_worker flt (prepare_worker_w e w)).m_state) ∧
    (∀ (p : sinsp_plugin_evt_processor) (e : sinsp_evt) (i : Nat),
      (process_event p e).1.m_workers.getD i default =
          p.m_workers.getD i default ∨
        ((p.m_workers.getD i default).m_state = WS_READY ∧
          ((process_event p e).1.m_workers.getD i default).m_state =
            wsNext (p.m_workers.getD i default).m_state)) ∧
    (∀ (p : sinsp_plugin_evt_processor) (i : Nat),
      (stepWorkers p).m_workers.getD i default =
          p.m_workers.getD i default ∨
        ((p.m_workers.getD i default).m_state = WS_WORKING ∧
          ((stepWorkers p).m_workers.getD i default).m_state =
            wsNext (p.m_workers.getD i default).m_state)) ∧
    (∀ (p : sinsp_plugin_evt_processor) (i : Nat),
      (get_event_from_backlog p).1.m_workers.getD i default =
          p.m_workers.getD i default ∨
        ((p.m_workers.getD i default).m_state = WS_HAS_RESULT ∧
          ((get_event_from_backlog p).1.m_workers.getD i default).m_state =
            wsNext (p.m_workers.getD i default).m_state)) := by
  refine ⟨⟨rfl, rfl, rfl⟩, ?_, ?_, ?_, ?_, ?_, ?_, ?_, ?_⟩
  · intro e w h
    rw [h, prepare_worker_w]
    rfl
  · intro flt w h
    rw [h, eval_worker_of_working flt w h]
    rfl
  · exact eval_worker_of_not_working
  · intro w h
    rw [h, drain_worker]
    rfl
  · intro flt e w h
    refine ⟨by rw [h, prepare_worker_w]; rfl, ?_, ?_⟩
    · rw [eval_worker_of_working flt _ rfl]
      rfl
    · rw [eval_worker_of_working flt _ rfl, drain_worker]
      rfl
  · intro p e i
    by_cases hip : p.m_inprogress
    · left
      simp [process_event, hip]
    · cases hfr : firstReadyIdx p.m_workers with
      | none =>
        left
        simp [process_event, hip, hfr]
      | some j =>
        obtain ⟨hlen, hrj, _⟩ := firstReadyIdx_spec _ _ hfr
        have hpe1 : (process_event p e).1.m_workers =
            p.m_workers.modify (prepare_worker_w e) j := by
          simp [process_event, hip, hfr]
        by_cases hij : j = i
        · subst hij
          have hready : (p.m_workers.getD j default).m_state = WS_READY :=
            hrj _ (getElem?_getD_self _ hlen)
          right
          refine ⟨hready, ?_⟩
          rw [hpe1, getD_modify_self _ _ hlen, hready, prepare_worker_w]
          rfl
        · left
          rw [hpe1, getD_modify_ne _ _ hij]
  · intro p i
    cases hli : p.m_workers[i]? with
    | none =>
      left
      have hlen : p.m_workers.length ≤ i := by
        by_contra hcon
        rw [List.getElem?_eq_getElem (Nat.lt_of_not_le hcon)] at hli
        cases hli
      rw [stepWorkers, List.getD_eq_getElem?_getD, List.getD_eq_getElem?_getD]
      have hmn : (p.m_workers.map (eval_worker (theFilter p)))[i]? = none := by
        rw [List.getElem?_map, hli]
        rfl
      rw [hmn, hli]
    | some a =>
      have hga : p.m_workers.getD i default = a := getD_eq_of_getElem? _ hli
      have hgm : (stepWorkers p).m_workers.getD i default =
          eval_worker (theFilter p) a := by
        apply getD_eq_of_getElem?
        rw [stepWorkers, List.getElem?_map, hli]
        rfl
      by_cases hst : a.m_state = WS_WORKING
      · right
        rw [hga, hgm, hst, eval_worker_of_working _ _ hst]
        exact ⟨rfl, rfl⟩
      · left
        rw [hga, hgm, eval_worker_of_not_working _ _ hst]
  · intro p i
    cases hfr : firstHasResultIdx p.m_workers with
    | none =>
      left
      simp [get_event_from_backlog, hfr]
    | some j =>
      obtain ⟨hlen, hrj, _⟩ := firstHasResultIdx_spec _ _ hfr
      have hpe1 : (get_event_from_backlog p).1.m_workers =
          p.m_workers.modify drain_worker j := by
        simp [get_event_from_backlog, hfr]
      by_cases hij : j = i
      · subst hij
        have hhr : (p.m_workers.getD j default).m_state = WS_HAS_RESULT :=
          hrj _ (getElem?_getD_self _ hlen)
        right
        refine ⟨hhr, ?_⟩
        rw [hpe1, getD_modify_self _ _ hlen, hhr, drain_worker]
        rfl
      · left
        rw [hpe1, getD_modify_ne _ _ hij]

/-- Witness for C2 on a concrete READY worker being assigned, evaluated
and drained. -/
theorem C2_state_cycle_never_skips_witness :
    (init_worker true).m_state = WS_READY ∧
    (prepare_worker_w evtFixA (init_worker true)).m_state =
      wsNext (init_worker true).m_state ∧
    (eval_worker fltFix (prepare_worker_w evtFixA (init_worker true))).m_state =
      wsNext (prepare_worker_w evtFixA (init_worker true)).m_state ∧
    (drain_worker
        (eval_worker fltFix
          (prepare_worker_w evtFixA (init_worker true)))).m_state =
      wsNext
        (eval_worker fltFix
          (prepare_worker_w evtFixA (init_worker true))).m_state :=
  ⟨rfl,
    (C2_state_cycle_never_skips.2.2.2.2.2.1 fltFix evtFixA
      (init_worker true) rfl).1,
    (C2_state_cycle_never_skips.2.2.2.2.2.1 fltFix evtFixA
      (init_worker true) rfl).2.1,
    (C2_state_cycle_never_skips.2.2.2.2.2.1 fltFix evtFixA
      (init_worker true) rfl).2.2⟩

/-- C4: with no event in flight, `process_event` selects the READY async
worker with the lowest pool index (deterministic linear scan), records the
event's plugin id in the in-progress sources map, assigns the event via
`prepare_worker`, sets the in-progress flag and returns null; when no
async worker is READY it evaluates inline on the synchronous worker and
returns the result (the event on match, null on non-match) immediately. -/
theorem C4_dispatch_lowest_ready_or_sync
    (p : sinsp_plugin_evt_processor) (e : sinsp_evt)
    (flt : sinsp_evt → Bool) (i : Nat) (hip : p.m_inprogress = false)
    (hf : p.m_filter = some flt) :
    (firstReadyIdx p.m_workers = some i →
      (process_event p e).2 = none ∧
      (process_event p e).1.m_inprogress = true ∧
      (p.m_workers.getD i default).m_state = WS_READY ∧
      (∀ k, k < i → (p.m_workers.getD k default).m_state ≠ WS_READY) ∧
      (process_event p e).1.m_workers.getD i default =
        prepare_worker_w e (p.m_workers.getD i default) ∧
      (∀ j, j ≠ i → (process_event p e).1.m_workers.getD j default =
        p.m_workers.getD j default) ∧
      (process_event p e).1.m_inprogress_infos =
        (e.source, get_plugin_source_info p e.source) ::
          p.m_inprogress_infos) ∧
    (firstReadyIdx p.m_workers = none →
      (process_event p e).2 = (if pepEval flt e then some e else none) ∧
      (process_event p e).1.m_inprogress = false ∧
      (process_event p e).1.m_workers = p.m_workers) := by
  have hth : theFilter p = flt := by rw [theFilter, hf]; rfl
  constructor
  · intro hfr
    obtain ⟨hlen, hri, hmin⟩ := firstReadyIdx_spec _ _ hfr
    have hready : (p.m_workers.getD i default).m_state = WS_READY :=
      hri _ (getElem?_getD_self _ hlen)
    have hpe1 : (process_event p e).1.m_workers =
        p.m_workers.modify (prepare_worker_w e) i := by
      simp [process_event, hip, hfr]
    refine ⟨by simp [process_event, hip, hfr],
      by simp [process_event, hip, hfr], hready, ?_, ?_, ?_,
      by simp [process_event, hip, hfr]⟩
    · intro k hk
      exact hmin k _ hk
        (getElem?_getD_self _ (Nat.lt_trans hk hlen))
    · rw [hpe1, getD_modify_self _ _ hlen]
    · intro j hj
      rw [hpe1, getD_modify_ne _ _ (Ne.symm hj)]
  · intro hfr
    simp [process_event, hip, hfr, syncProcess_spec, hth]

/-- Witness for C4 at a concrete idle processor dispatching to worker 0. -/
theorem C4_dispatch_lowest_ready_or_sync_witness :
    procFix.m_inprogress = false ∧ procFix.m_filter = some fltFix ∧
    firstReadyIdx procFix.m_workers = some 0 ∧
    (process_event procFix evtFixA).2 = none ∧
    (process_event procFix evtFixA).1.m_inprogress = true :=
  ⟨rfl, rfl, by decide,
    ((C4_dispatch_lowest_ready_or_sync procFix evtFixA fltFix 0 rfl rfl).1
      (by decide)).1,
    ((C4_dispatch_lowest_ready_or_sync procFix evtFixA fltFix 0 rfl rfl).1
      (by decide)).2.1⟩

/-- C5: `get_event_from_backlog` returns null without blocking whenever no
worker has reached HAS_RESULT; once the outstanding worker is in
HAS_RESULT it returns the worker's event on a match and null on a
non-match, and in either case resets that worker to READY, clears the
in-progress flag and removes the corresponding entry from the in-progress
sources map. -/
theorem C5_backlog_drain_contract (p : sinsp_plugin_evt_processor)
    (i : Nat) :
    ((∀ w ∈ p.m_workers, w.m_state ≠ WS_HAS_RESULT) →
      get_event_from_backlog p = (p, none)) ∧
    (firstHasResultIdx p.m_workers = some i →
      (get_event_from_backlog p).2 =
        (if (p.m_workers.getD i default).m_res then
          some (p.m_workers.getD i default).m_evt
        else none) ∧
      ((get_event_from_backlog p).1.m_workers.getD i default).m_state =
        WS_READY ∧
      (∀ j, j ≠ i → (get_event_from_backlog p).1.m_workers.getD j default =
        p.m_workers.getD j default) ∧
      (get_event_from_backlog p).1.m_inprogress = false ∧
      (get_event_from_backlog p).1.m_inprogress_infos =
        eraseSource p.m_inprogress_infos
          (p.m_workers.getD i default).m_evt.source ∧
      (∀ d : Option ss_plugin_info,
        ((p.m_workers.getD i default).m_evt.source, d) ∉
          (get_event_from_backlog p).1.m_inprogress_infos)) := by
  constructor
  · intro hall
    rw [get_event_from_backlog, firstHasResultIdx_none_of_all _ hall]
  · intro hfr
    obtain ⟨hlen, hri, _⟩ := firstHasResultIdx_spec _ _ hfr
    have hpe1 : (get_event_from_backlog p).1.m_workers =
        p.m_workers.modify drain_worker i := by
      simp [get_event_from_backlog, hfr]
    refine ⟨by simp [get_event_from_backlog, hfr], ?_, ?_,
      by simp [get_event_from_backlog, hfr],
      by simp [get_event_from_backlog, hfr], ?_⟩
    · rw [hpe1, getD_modify_self _ _ hlen, drain_worker]
    · intro j hj
      rw [hpe1, getD_modify_ne _ _ (Ne.symm hj)]
    · intro d hd
      have hinfos : (get_event_from_backlog p).1.m_inprogress_infos =
          eraseSource p.m_inprogress_infos
            (p.m_workers.getD i default).m_evt.source := by
        simp [get_event_from_backlog, hfr]
      rw [hinfos, eraseSource] at hd
      have := (List.mem_filter.1 hd).2
      simp at this

/-- Witness for C5 on a concrete processor whose single worker holds a
match result, and on a concrete processor with no finished worker. -/
theorem C5_backlog_drain_contract_witness :
    (∀ w ∈ procFix.m_workers, w.m_state ≠ WS_HAS_RESULT) ∧
    get_event_from_backlog procFix = (procFix, none) :=
  ⟨by decide,
    (C5_backlog_drain_contract procFix 0).1 (by decide)⟩

/-- C8: `get_plugin_source_info` returns the exact descriptor registered
for an id (under the registry's key-uniqueness) and the not-found signal
for every id never registered; the registered descriptor list is never
modified by any filtering-phase operation. -/
theorem C8_registry_lookup_exact (p : sinsp_plugin_evt_processor)
    (id : Nat) (d : ss_plugin_info) (e : sinsp_evt) :
    ((p.m_source_info_list.map Prod.fst).Nodup →
      (id, d) ∈ p.m_source_info_list →
      get_plugin_source_info p id = some d) ∧
    ((∀ d2 : ss_plugin_info, (id, d2) ∉ p.m_source_info_list) →
      get_plugin_source_info p id = none) ∧
    (process_event p e).1.m_source_info_list = p.m_source_info_list ∧
    (stepWorkers p).m_source_info_list = p.m_source_info_list ∧
    (get_event_from_backlog p).1.m_source_info_list =
      p.m_source_info_list := by
  refine ⟨?_, ?_, ?_, rfl, ?_⟩
  · intro hnd hmem
    rw [get_plugin_source_info]
    exact assoc_find_some _ _ _ hnd hmem
  · intro hnone
    rw [get_plugin_source_info, assoc_find_none _ _ hnone]
    rfl
  · by_cases hip : p.m_inprogress
    · simp [process_event, hip]
    · cases hfr : firstReadyIdx p.m_workers with
      | none => simp [process_event, hip, hfr]
      | some j => simp [process_event, hip, hfr]
  · cases hfr : firstHasResultIdx p.m_workers with
    | none => simp [get_event_from_backlog, hfr]
    | some j => simp [get_event_from_backlog, hfr]

/-- Witness for C8: the concrete registry of `procFix` holds descriptor 42
for id 7 and nothing for id 8. -/
theorem C8_registry_lookup_exact_witness :
    (procFix.m_source_info_list.map Prod.fst).Nodup ∧
    (7, 42) ∈ procFix.m_source_info_list ∧
    (∀ d2 : ss_plugin_info, (8, d2) ∉ procFix.m_source_info_list) ∧
    get_plugin_source_info procFix 7 = some 42 ∧
    get_plugin_source_info procFix 8 = none :=
  ⟨by decide, by decide,
    by intro d2 hmem; simp [procFix, mk_processor] at hmem,
    (C8_registry_lookup_exact procFix 7 42 evtFixA).1 (by decide) (by decide),
    (C8_registry_lookup_exact procFix 8 42 evtFixA).2.1
      (by intro d2 hmem; simp [procFix, mk_processor] at hmem)⟩
